import Mathlib

/-!
Verification of the scholar repository: a versioned document store
(`saveNewPaper`, `savePaperVersion`, `deletePaper` over a localStorage-backed
list of papers) and a markdown rendering pipeline (document segmenter,
table parser, inline formatter from `PaperRenderer`).

The store is modelled as the in-memory `List Paper` that the code reads from
and writes back to localStorage on every operation.  The impure sources of
the code — `generateId()` and `Date.now()` — are passed in as explicit
arguments (`pid`, `vid`, `ts`): a call site supplies fresh values for them.
Strings handled by the renderer are modelled as `List Char`, with JS
`split`, `trim`, `substring` and the two regexes of `PaperRenderer`
(`/```mermaid([\s\S]*?)```/g` and `/(\*\*.*?\*\*|\*.*?\*)/g`) embedded as
executable functions on that model.
-/

namespace Scholar

/-! ## Definitions: the versioned document store (storageService) -/

/-- Structure `PaperVersion` from types.ts: one immutable snapshot of a
paper. -/
structure PaperVersion where
  id : String
  versionNumber : Nat
  content : String
  createdAt : Nat
deriving DecidableEq, Repr

/-- Structure `Paper` from types.ts. -/
structure Paper where
  id : String
  topic : String
  overview : String
  createdAt : Nat
  updatedAt : Nat
  versions : List PaperVersion
deriving DecidableEq, Repr

/-- Placeholder used for the (unreachable) out-of-bounds read in
`savePaperVersion`; `findIndex` success guarantees the index is in bounds. -/
def defaultPaper : Paper := ⟨"", "", "", 0, 0, []⟩

/-- Function `saveNewPaper` from storageService: builds a paper with a
single version numbered 1, all timestamps equal to `ts`, and `unshift`s it
onto the stored collection.  Returns the new paper and the new collection. -/
def saveNewPaper (papers : List Paper) (topic overview content pid vid : String)
    (ts : Nat) : Paper × List Paper :=
  let newPaper : Paper :=
    { id := pid, topic := topic, overview := overview,
      createdAt := ts, updatedAt := ts,
      versions := [{ id := vid, versionNumber := 1, content := content, createdAt := ts }] }
  (newPaper, newPaper :: papers)

/-- Function `savePaperVersion` from storageService: `findIndex` by id; on
miss returns `null` (here `none`, and no write happens); on hit pushes a new
version numbered `versions.length + 1`, sets `updatedAt`, `splice`s the
paper out and `unshift`s it back at the front. -/
def savePaperVersion (papers : List Paper) (paperId content vid : String)
    (ts : Nat) : Option (Paper × List Paper) :=
  match papers.findIdx? (fun p => p.id == paperId) with
  | none => none
  | some index =>
    let paper := papers.getD index defaultPaper
    let newVersion : PaperVersion :=
      { id := vid, versionNumber := paper.versions.length + 1,
        content := content, createdAt := ts }
    let updated : Paper :=
      { paper with versions := paper.versions ++ [newVersion], updatedAt := ts }
    some (updated, updated :: papers.eraseIdx index)

/-- Function `deletePaper` from storageService: filters the collection by id
and writes the result back. -/
def deletePaper (papers : List Paper) (id : String) : List Paper :=
  papers.filter (fun p => p.id != id)

/-- The paper `savePaperVersion` builds from the found paper: one version
appended, numbered `count + 1`, and `updatedAt` set to the fresh timestamp. -/
def appendedPaper (paper : Paper) (content vid : String) (ts : Nat) : Paper :=
  { paper with
    versions := paper.versions
      ++ [{ id := vid, versionNumber := paper.versions.length + 1,
            content := content, createdAt := ts }],
    updatedAt := ts }

/-- The stored collection after a `savePaperVersion` call: on a miss the
code returns before `localStorage.setItem`, so the store is untouched. -/
def savePaperVersionStore (papers : List Paper) (paperId content vid : String)
    (ts : Nat) : List Paper :=
  match savePaperVersion papers paperId content vid ts with
  | none => papers
  | some (_, ps) => ps

/-- The `versionNumber` sequence of a paper's versions, in list order. -/
def versionNumbers (p : Paper) : List Nat :=
  p.versions.map (·.versionNumber)

/-- A finite sequence of `savePaperVersion` calls addressed to `pid`, each
supplying its content, fresh version id and timestamp; `none` if any call
reports not-found (all calls in the modelled runs succeed). -/
def appendMany (papers : List Paper) (pid : String) :
    List (String × String × Nat) → Option (List Paper)
  | [] => some papers
  | (content, vid, ts) :: rest =>
    match savePaperVersion papers pid content vid ts with
    | none => none
    | some (_, ps) => appendMany ps pid rest

/-- One store operation, carrying the fresh ids and the `Date.now()`
timestamp the code would observe when executing it. -/
inductive StoreOp where
  | create (topic overview content pid vid : String) (ts : Nat)
  | append (pid content vid : String) (ts : Nat)
  | del (pid : String)
deriving DecidableEq, Repr

/-- Effect of one operation on the stored collection (`getPapers` reads it,
the operation writes it back; a not-found append writes nothing). -/
def applyOp (papers : List Paper) : StoreOp → List Paper
  | .create topic overview content pid vid ts =>
      (saveNewPaper papers topic overview content pid vid ts).2
  | .append pid content vid ts =>
      match savePaperVersion papers pid content vid ts with
      | none => papers
      | some (_, ps) => ps
  | .del pid => deletePaper papers pid

/-- Effect of a whole operation sequence, starting from `papers`. -/
def applyOps (papers : List Paper) (ops : List StoreOp) : List Paper :=
  ops.foldl applyOp papers

/-- Timestamps one operation consumes from `Date.now()` (`del` reads none). -/
def opTs : StoreOp → List Nat
  | .create _ _ _ _ _ ts => [ts]
  | .append _ _ _ ts => [ts]
  | .del _ => []

/-- Timestamps a sequence of operations consumes, in order. -/
def opsTs : List StoreOp → List Nat
  | [] => []
  | op :: rest => opTs op ++ opsTs rest

/-- The store is ordered most-recently-updated first: descending
`updatedAt` along the list. -/
def recencyOrdered (papers : List Paper) : Prop :=
  List.Pairwise (fun a b => b.updatedAt ≤ a.updatedAt) papers

/-- A concrete run of store operations used to witness C3. -/
def demoOps : List StoreOp :=
  [ .create "t1" "o1" "c1" "p1" "v1" 5,
    .create "t2" "o2" "c2" "p2" "v2" 7,
    .append "p1" "c3" "v3" 9,
    .del "p2" ]

/-! ## Definitions: the rendering pipeline (PaperRenderer) -/

/-- JS `str.split(sep)` for a one-character separator, over the char-list
model of strings. -/
def splitOnChar (sep : Char) : List Char → List (List Char)
  | [] => [[]]
  | c :: cs =>
    match splitOnChar sep cs with
    | [] => [[]]
    | h :: t => if c = sep then [] :: h :: t else (c :: h) :: t

/-- Whitespace as JS `trim()` strips it (the characters relevant here). -/
def isWsChar (c : Char) : Bool :=
  c = ' ' || c = '\t' || c = '\n' || c = '\r'

/-- JS `str.trim()` over the char-list model. -/
def trimChars (l : List Char) : List Char :=
  ((l.dropWhile isWsChar).reverse.dropWhile isWsChar).reverse

/-- One markdown table row as `renderTable` parses it:
`row.split('|').filter(c => c.trim() !== '').map(c => c.trim())`.
Note the filter removes *every* fragment that trims to empty, interior
fragments included. -/
def parseRow (row : List Char) : List (List Char) :=
  ((splitOnChar '|' row).filter (fun c => trimChars c != [])).map trimChars

/-- The grid `renderTable` builds before rendering. -/
structure TableData where
  headers : List (List Char)
  body : List (List (List Char))
deriving DecidableEq, Repr

/-- The parsing core of `renderTable`: header from `rows[0]`, row 1 (the
divider) discarded without inspection, `rows.slice(2)` as body, each row
parsed by `parseRow`.  (`renderTable` is only called with a non-empty
buffer; `headD` supplies the head in that case.) -/
def parseTable (rows : List (List Char)) : TableData :=
  { headers := parseRow (rows.headD []),
    body := (rows.drop 2).map parseRow }

/-- Following the spec's words (§4.3): drop the single leading fragment
when it trims to empty (the fragment a leading pipe produces). -/
def dropLeadEmpty : List (List Char) → List (List Char)
  | [] => []
  | c :: rest => if trimChars c = [] then rest else c :: rest

/-- Following the spec's words (§4.3), for comparison with `parseRow`:
split on `|`, drop *only* the empty-after-trim leading and trailing
fragments produced by a leading/trailing pipe, trim each remaining cell. -/
def specParseRow (row : List Char) : List (List Char) :=
  (dropLeadEmpty ((dropLeadEmpty (splitOnChar '|' row).reverse).reverse)).map trimChars

/-- Test for `pat` occurring in `s` starting at index `i`. -/
def patAt (s : List Char) (i : Nat) (pat : List Char) : Bool :=
  (s.drop i).take pat.length == pat

/-- JS `str.substring(a, b)` (for `a ≤ b`). -/
def substringChars (s : List Char) (a b : Nat) : List Char :=
  (s.take b).drop a

/-- The opening literal of the fence regex `/```mermaid([\s\S]*?)```/g`. -/
def fenceOpen : List Char := "```mermaid".toList

/-- The closing literal of the fence regex. -/
def fenceClose : List Char := "```".toList

/-- Least index `i ≥ start` at which `pat` occurs, if any. -/
def findPat (s : List Char) (start : Nat) (pat : List Char) : Option Nat :=
  (List.range' start (s.length + 1 - start)).find? (fun i => patAt s i pat)

/-- Leftmost match of the fence regex at or after `start`: the position of
the opening literal paired with the position of the lazily chosen (nearest)
closing fence.  An opening literal with no closing fence after it matches
nothing, exactly as the regex backtracks. -/
def findFence (s : List Char) (start : Nat) : Option (Nat × Nat) :=
  match (List.range' start (s.length + 1 - start)).find?
      (fun i => patAt s i fenceOpen
        && (findPat s (i + fenceOpen.length) fenceClose).isSome) with
  | none => none
  | some i =>
    match findPat s (i + fenceOpen.length) fenceClose with
    | none => none
    | some j => some (i, j)

/-- A top-level segment of the raw document, as produced by the `sections`
useMemo of `PaperRenderer`. -/
inductive Segment where
  | text (content : List Char)
  | diagram (content : List Char)
deriving DecidableEq, Repr

/-- The `while ((match = mermaidRegex.exec(content)) !== null)` loop of the
`sections` useMemo: emit the text before each match (only when non-empty),
emit the trimmed fence interior as a diagram segment, continue after the
closing fence, and finally emit the remaining text (only when non-empty).
`fuel` bounds the iteration count; each iteration advances `lastIndex` by
at least 13, so `s.length + 1` iterations are never exhausted. -/
def segmentLoop (s : List Char) : Nat → Nat → List Segment
  | 0, _ => []
  | fuel + 1, lastIndex =>
    match findFence s lastIndex with
    | none =>
      if lastIndex < s.length then [Segment.text (substringChars s lastIndex s.length)]
      else []
    | some (i, j) =>
      (if lastIndex < i then [Segment.text (substringChars s lastIndex i)] else [])
        ++ [Segment.diagram (trimChars (substringChars s (i + fenceOpen.length) j))]
        ++ segmentLoop s fuel (j + fenceClose.length)

/-- The document segmenter: the full `sections` computation. -/
def segmentDoc (s : List Char) : List Segment :=
  segmentLoop s (s.length + 1) 0

/-- A concrete fence-free document used to witness C5. -/
def demoText : List Char := "# Title and *prose* only".toList

/-- Test for `s[j] === '*'`; false out of range. -/
def starAt (s : List Char) (j : Nat) : Bool :=
  s.getD j ' ' == '*'

/-- Least `j ≥ start` with a `*` at `j`, if any. -/
def findStar (s : List Char) (start : Nat) : Option Nat :=
  (List.range' start (s.length - start)).find? (fun j => starAt s j)

/-- Least `j ≥ start` with `**` at `j`, if any. -/
def findStarPair (s : List Char) (start : Nat) : Option Nat :=
  (List.range' start (s.length - start)).find? (fun j => starAt s j && starAt s (j + 1))

/-- Match of `\*\*.*?\*\*|\*.*?\*` anchored at position `i`: the exclusive
end of the match, preferring the bold alternative with its lazily nearest
closing `**`, falling back to the italic alternative with its lazily
nearest closing `*`; `none` when neither alternative completes at `i`. -/
def matchEmphAt (s : List Char) (i : Nat) : Option Nat :=
  if starAt s i then
    if starAt s (i + 1) then
      match findStarPair s (i + 2) with
      | some j => some (j + 2)
      | none =>
        match findStar s (i + 1) with
        | some j => some (j + 1)
        | none => none
    else
      match findStar s (i + 1) with
      | some j => some (j + 1)
      | none => none
  else none

/-- Leftmost emphasis match at or after `start`: start and end positions. -/
def findEmph (s : List Char) (start : Nat) : Option (Nat × Nat) :=
  match (List.range' start (s.length - start)).find? (fun i => (matchEmphAt s i).isSome) with
  | none => none
  | some i =>
    match matchEmphAt s i with
    | none => none
    | some e => some (i, e)

/-- JS `text.split(/(\*\*.*?\*\*|\*.*?\*)/g)`: the fragments between
matches (kept even when empty, including the leading and trailing ones)
alternate with the matched separators themselves (the capture group).
`fuel` bounds iterations; every match ends at least two positions further
on, so `s.length + 1` iterations are never exhausted. -/
def splitEmph (s : List Char) : Nat → Nat → List (List Char)
  | 0, pos => [substringChars s pos s.length]
  | fuel + 1, pos =>
    match findEmph s pos with
    | none => [substringChars s pos s.length]
    | some (i, e) =>
      substringChars s pos i :: substringChars s i e :: splitEmph s fuel e

/-- A styled text run produced by `parseFormatting`. -/
inductive StyledRun where
  | plain (content : List Char)
  | bold (content : List Char)
  | italic (content : List Char)
deriving DecidableEq, Repr

/-- Classification of one split part, exactly as in `parseFormatting`:
`startsWith('**') && endsWith('**')` → bold with `slice(2, -2)`;
else `startsWith('*') && endsWith('*')` → italic with `slice(1, -1)`;
otherwise a plain run. -/
def classifyPart (p : List Char) : StyledRun :=
  if p.take 2 == ['*', '*'] && p.drop (p.length - 2) == ['*', '*'] then
    .bold ((p.drop 2).take (p.length - 4))
  else if p.take 1 == ['*'] && p.drop (p.length - 1) == ['*'] then
    .italic ((p.drop 1).take (p.length - 2))
  else .plain p

/-- Function `parseFormatting` from `PaperRenderer`: split, then classify
each part. -/
def parseFormatting (s : List Char) : List StyledRun :=
  (splitEmph s (s.length + 1) 0).map classifyPart

/-- The spec's inline-formatting example line. -/
def demoLine : List Char := "plain **bold** and *italic*".toList

/-! ## Store lemmas shared by several proofs -/

/-- Computation rule for `savePaperVersion` when `findIndex` succeeds. -/
theorem savePaperVersion_eq_found
    (papers : List Paper) (paperId content vid : String) (ts : Nat) (index : Nat)
    (h : papers.findIdx? (fun p => p.id == paperId) = some index) :
    savePaperVersion papers paperId content vid ts
      = some (appendedPaper (papers.getD index defaultPaper) content vid ts,
              appendedPaper (papers.getD index defaultPaper) content vid ts
                :: papers.eraseIdx index) := by
  unfold savePaperVersion appendedPaper
  rw [h]

/-- Computation rule: `savePaperVersion` on a store whose head already has
the requested id updates the head in place at index 0. -/
theorem savePaperVersion_head (p : Paper) (rest : List Paper)
    (pid content vid : String) (ts : Nat) (hid : p.id = pid) :
    savePaperVersion (p :: rest) pid content vid ts
      = some (appendedPaper p content vid ts, appendedPaper p content vid ts :: rest) := by
  have hfind : (p :: rest).findIdx? (fun q => q.id == pid) = some 0 := by
    simp [List.findIdx?_cons, hid]
  unfold savePaperVersion appendedPaper
  rw [hfind]
  rfl

/-- Invariant for C2: if the store's head is the tracked paper and its
version numbers are exactly `1..count`, any run of appends keeps the paper
at the head with version numbers exactly `1..count'`. -/
theorem appendMany_inv (pid : String) (ops : List (String × String × Nat)) :
    ∀ (p : Paper) (rest : List Paper), p.id = pid →
      versionNumbers p = List.range' 1 p.versions.length →
      ∃ p' rest', appendMany (p :: rest) pid ops = some (p' :: rest') ∧
        p'.id = pid ∧
        p'.versions.length = p.versions.length + ops.length ∧
        versionNumbers p' = List.range' 1 p'.versions.length := by
  induction ops with
  | nil =>
    intro p rest hid hinv
    exact ⟨p, rest, rfl, hid, by simp [appendMany], hinv⟩
  | cons op ops ih =>
    intro p rest hid hinv
    obtain ⟨c, vid, ts⟩ := op
    have hstep := savePaperVersion_head p rest pid c vid ts hid
    have hinv' : versionNumbers (appendedPaper p c vid ts)
        = List.range' 1 (p.versions.length + 1) := by
      simp only [versionNumbers, appendedPaper, List.map_append, List.map_cons, List.map_nil]
      rw [versionNumbers] at hinv
      rw [hinv, List.range'_1_concat, Nat.add_comm 1 p.versions.length]
    obtain ⟨p', rest', happ, hid', hlen', hnum'⟩ :=
      ih (appendedPaper p c vid ts) rest hid
        (by simpa [appendedPaper] using hinv')
    refine ⟨p', rest', ?_, hid', ?_, hnum'⟩
    · show appendMany (p :: rest) pid ((c, vid, ts) :: ops) = some (p' :: rest')
      unfold appendMany
      rw [hstep]
      exact happ
    · simp only [List.length_cons] at hlen' ⊢
      simp [appendedPaper] at hlen'
      omega

/-- Invariant for C3, carried through `applyOps`: if the store is
recency-ordered with all `updatedAt` at most `t`, and the upcoming
timestamps are non-decreasing starting from `t`, both facts persist. -/
theorem applyOps_inv (ops : List StoreOp) :
    ∀ (papers : List Paper) (t : Nat),
      recencyOrdered papers →
      (∀ p ∈ papers, p.updatedAt ≤ t) →
      List.Chain' (· ≤ ·) (t :: opsTs ops) →
      ∃ t', recencyOrdered (applyOps papers ops) ∧
        ∀ p ∈ applyOps papers ops, p.updatedAt ≤ t' := by
  induction ops with
  | nil =>
    intro papers t hord hbd _
    exact ⟨t, hord, hbd⟩
  | cons op rest ih =>
    intro papers t hord hbd hchain
    have happly : applyOps papers (op :: rest) = applyOps (applyOp papers op) rest := rfl
    rw [happly]
    cases op with
    | create topic overview content pid vid ts =>
      have hchain' : t ≤ ts ∧ List.Chain' (· ≤ ·) (ts :: opsTs rest) := by
        simpa [opsTs, opTs, List.chain'_cons] using hchain
      apply ih ((saveNewPaper papers topic overview content pid vid ts).2) ts
      · refine List.Pairwise.cons ?_ hord
        intro p hp
        simpa [saveNewPaper] using le_trans (hbd p hp) hchain'.1
      · intro p hp
        rcases List.mem_cons.mp hp with h | h
        · simp [h, saveNewPaper]
        · exact le_trans (hbd p h) hchain'.1
      · exact hchain'.2
    | append pid content vid ts =>
      have hchain' : t ≤ ts ∧ List.Chain' (· ≤ ·) (ts :: opsTs rest) := by
        simpa [opsTs, opTs, List.chain'_cons] using hchain
      cases hf : papers.findIdx? (fun p => p.id == pid) with
      | none =>
        have hnone : savePaperVersion papers pid content vid ts = none := by
          unfold savePaperVersion
          rw [hf]
        have : applyOp papers (.append pid content vid ts) = papers := by
          simp [applyOp, hnone]
        rw [this]
        apply ih papers ts hord
        · intro p hp
          exact le_trans (hbd p hp) hchain'.1
        · exact hchain'.2
      | some index =>
        have heq := savePaperVersion_eq_found papers pid content vid ts index hf
        have hupd : (appendedPaper (papers.getD index defaultPaper) content vid ts).updatedAt
            = ts := rfl
        have : applyOp papers (.append pid content vid ts)
            = appendedPaper (papers.getD index defaultPaper) content vid ts
                :: papers.eraseIdx index := by
          simp [applyOp, heq]
        rw [this]
        have hsub : List.Sublist (papers.eraseIdx index) papers :=
          List.eraseIdx_sublist papers index
        apply ih (appendedPaper (papers.getD index defaultPaper) content vid ts
            :: papers.eraseIdx index) ts
        · refine List.Pairwise.cons ?_ (hord.sublist hsub)
          intro p hp
          rw [hupd]
          exact le_trans (hbd p (hsub.subset hp)) hchain'.1
        · intro p hp
          rcases List.mem_cons.mp hp with h | h
          · rw [h, hupd]
          · exact le_trans (hbd p (hsub.subset h)) hchain'.1
        · exact hchain'.2
    | del pid =>
      have hchain' : List.Chain' (· ≤ ·) (t :: opsTs rest) := by
        simpa [opsTs, opTs] using hchain
      apply ih (deletePaper papers pid) t
      · exact hord.sublist (List.filter_sublist papers)
      · intro p hp
        exact hbd p ((List.filter_sublist papers).subset hp)
      · exact hchain'

/-! ## C1 -/

/-- Claim C1 (confirmed).  If `paperId` is present in the store
(`findIndex` returns `index`), `savePaperVersion` succeeds and returns an
updated paper that: appends exactly one new version, numbered
`prior version count + 1`, created at the supplied fresh timestamp `ts`;
has `updatedAt` equal to that same `ts`; keeps id, topic, overview,
createdAt and all pre-existing versions unchanged; and the new store is
the updated paper at index 0 followed by all other papers
(`eraseIdx index`) unchanged. -/
theorem savePaperVersion_found_spec
    (papers : List Paper) (paperId content vid : String) (ts : Nat) (index : Nat)
    (h : papers.findIdx? (fun p => p.id == paperId) = some index) :
    ∃ updated : Paper,
      savePaperVersion papers paperId content vid ts
        = some (updated, updated :: papers.eraseIdx index) ∧
      updated.versions
        = (papers.getD index defaultPaper).versions
            ++ [{ id := vid,
                  versionNumber := (papers.getD index defaultPaper).versions.length + 1,
                  content := content, createdAt := ts }] ∧
      updated.updatedAt = ts ∧
      updated.id = (papers.getD index defaultPaper).id ∧
      updated.topic = (papers.getD index defaultPaper).topic ∧
      updated.overview = (papers.getD index defaultPaper).overview ∧
      updated.createdAt = (papers.getD index defaultPaper).createdAt :=
  ⟨appendedPaper (papers.getD index defaultPaper) content vid ts,
   savePaperVersion_eq_found papers paperId content vid ts index h,
   rfl, rfl, rfl, rfl, rfl, rfl⟩

/-- Witness for C1 at a concrete one-paper store. -/
theorem savePaperVersion_found_spec_witness :
    ∃ updated : Paper,
      savePaperVersion [⟨"p1", "t", "o", 5, 5, [⟨"v1", 1, "c", 5⟩]⟩] "p1" "c2" "v2" 9
        = some (updated, updated :: ([⟨"p1", "t", "o", 5, 5, [⟨"v1", 1, "c", 5⟩]⟩] : List Paper).eraseIdx 0) ∧
      updated.versions
        = (([⟨"p1", "t", "o", 5, 5, [⟨"v1", 1, "c", 5⟩]⟩] : List Paper).getD 0 defaultPaper).versions
            ++ [{ id := "v2",
                  versionNumber := (([⟨"p1", "t", "o", 5, 5, [⟨"v1", 1, "c", 5⟩]⟩] : List Paper).getD 0 defaultPaper).versions.length + 1,
                  content := "c2", createdAt := 9 }] ∧
      updated.updatedAt = 9 ∧
      updated.id = (([⟨"p1", "t", "o", 5, 5, [⟨"v1", 1, "c", 5⟩]⟩] : List Paper).getD 0 defaultPaper).id ∧
      updated.topic = (([⟨"p1", "t", "o", 5, 5, [⟨"v1", 1, "c", 5⟩]⟩] : List Paper).getD 0 defaultPaper).topic ∧
      updated.overview = (([⟨"p1", "t", "o", 5, 5, [⟨"v1", 1, "c", 5⟩]⟩] : List Paper).getD 0 defaultPaper).overview ∧
      updated.createdAt = (([⟨"p1", "t", "o", 5, 5, [⟨"v1", 1, "c", 5⟩]⟩] : List Paper).getD 0 defaultPaper).createdAt :=
  savePaperVersion_found_spec [⟨"p1", "t", "o", 5, 5, [⟨"v1", 1, "c", 5⟩]⟩] "p1" "c2" "v2" 9 0 (by decide)

/-! ## C2 -/

/-- Claim C2 (confirmed).  Starting from any store, create a paper
(`saveNewPaper`) and run any finite sequence of `savePaperVersion` calls
addressed to it.  Every call succeeds, and the document's `versionNumber`
sequence is exactly `1, 2, ..., ops.length + 1` in list order — contiguous
ascending integers starting at 1 with no gaps or repeats
(`List.range' 1 n`). -/
theorem versionNumbers_contiguous
    (papers : List Paper) (topic overview content pid vid : String) (ts : Nat)
    (ops : List (String × String × Nat)) :
    ∃ (p' : Paper) (rest' : List Paper),
      appendMany (saveNewPaper papers topic overview content pid vid ts).2 pid ops
        = some (p' :: rest') ∧
      p'.id = pid ∧
      p'.versions.length = ops.length + 1 ∧
      versionNumbers p' = List.range' 1 (ops.length + 1) := by
  obtain ⟨p', rest', happ, hid', hlen', hnum'⟩ :=
    appendMany_inv pid ops (saveNewPaper papers topic overview content pid vid ts).1
      papers rfl (by simp [versionNumbers, saveNewPaper])
  have hlen : p'.versions.length = ops.length + 1 := by
    simpa [saveNewPaper, Nat.add_comm] using hlen'
  exact ⟨p', rest', happ, hid', hlen, by rw [hnum', hlen]⟩

/-! ## C3 -/

/-- Claim C3 (confirmed).  Starting from the empty store, after any
sequence of create, append and delete operations whose consumed
timestamps are non-decreasing, the stored collection — what
`getPapers`/`list()` returns — is ordered by descending `updatedAt`; and
every successful `savePaperVersion` places the updated paper at index 0 of
the resulting store, regardless of its prior position. -/
theorem listOrdering_spec (ops : List StoreOp)
    (h : List.Chain' (· ≤ ·) (opsTs ops)) :
    recencyOrdered (applyOps [] ops) ∧
    ∀ (papers : List Paper) (pid content vid : String) (ts : Nat)
      (pr : Paper) (ps : List Paper),
      savePaperVersion papers pid content vid ts = some (pr, ps) →
      ps.head? = some pr := by
  constructor
  · have h0 : List.Chain' (· ≤ ·) (0 :: opsTs ops) := by
      rw [List.chain'_cons']
      exact ⟨fun b _ => Nat.zero_le b, h⟩
    obtain ⟨t', hord, _⟩ :=
      applyOps_inv ops [] 0 List.Pairwise.nil (by intro p hp; cases hp) h0
    exact hord
  · intro papers pid content vid ts pr ps hsave
    cases hf : papers.findIdx? (fun p => p.id == pid) with
    | none =>
      exfalso
      unfold savePaperVersion at hsave
      rw [hf] at hsave
      cases hsave
    | some index =>
      rw [savePaperVersion_eq_found papers pid content vid ts index hf] at hsave
      injection hsave with hsave
      injection hsave with h1 h2
      rw [← h2, ← h1]
      rfl

/-- Witness for C3: the demo run has non-decreasing timestamps and yields a
recency-ordered store. -/
theorem listOrdering_spec_witness :
    List.Chain' (· ≤ ·) (opsTs demoOps) ∧ recencyOrdered (applyOps [] demoOps) :=
  ⟨by simp [demoOps, opsTs, opTs, List.chain'_cons],
   (listOrdering_spec demoOps (by simp [demoOps, opsTs, opTs, List.chain'_cons])).1⟩

/-! ## C4 -/

/-- Counterexample to C4 as stated: on `"| a || b |"` the code's row rule
also drops the *interior* empty fragment produced by `||`, yielding
`["a","b"]`, while the claimed drop-only-leading/trailing rule yields
`["a","","b"]`. -/
theorem parseTable_counterexample :
    (parseTable ["| a || b |".toList, "|---|---|".toList]).headers
      = ["a".toList, "b".toList] ∧
    specParseRow "| a || b |".toList = ["a".toList, [], "b".toList] ∧
    (parseTable ["| a || b |".toList, "|---|---|".toList]).headers
      ≠ specParseRow "| a || b |".toList := by
  refine ⟨?_, ?_, ?_⟩ <;> decide

/-- Claim C4 (amended).  For every non-empty line list: the header comes
from row 0 by splitting on `|`, dropping every empty-after-trim fragment
(interior ones included, not only those from a leading/trailing pipe), and
trimming each remaining cell; row 1 is unconditionally discarded whatever
its content; rows 2..end are parsed by the same rule, row by row, with no
column-count reconciliation against the header. -/
theorem parseTable_spec (l0 : List Char) (rest : List (List Char)) :
    (parseTable (l0 :: rest)).headers = parseRow l0 ∧
    (∀ l1 l1' rest', parseTable (l0 :: l1 :: rest') = parseTable (l0 :: l1' :: rest')) ∧
    (parseTable (l0 :: rest)).body = ((l0 :: rest).drop 2).map parseRow :=
  ⟨rfl, fun _ _ _ => rfl, rfl⟩

/-! ## C5 -/

/-- Counterexample to C5 as stated: the empty string contains no mermaid
fence, yet the segmenter returns *zero* segments for it, not one empty
text segment (`lastIndex < content.length` fails at `0 < 0`). -/
theorem segmentDoc_counterexample :
    findFence [] 0 = none ∧ segmentDoc [] = [] ∧ segmentDoc [] ≠ [Segment.text []] := by
  refine ⟨?_, ?_, ?_⟩ <;> decide

/-- Claim C5 (amended).  For every *non-empty* input in which the fence
pattern finds no match (`findFence` from position 0 is `none`), the
segmenter returns exactly one segment, of kind text, whose content equals
the input.  (For the empty input it returns no segments at all.) -/
theorem segmentDoc_noFence (s : List Char) (hf : findFence s 0 = none)
    (hne : s ≠ []) : segmentDoc s = [Segment.text s] := by
  have hstep : segmentDoc s
      = match findFence s 0 with
        | none =>
          if 0 < s.length then [Segment.text (substringChars s 0 s.length)]
          else []
        | some (i, j) =>
          (if 0 < i then [Segment.text (substringChars s 0 i)] else [])
            ++ [Segment.diagram (trimChars (substringChars s (i + fenceOpen.length) j))]
            ++ segmentLoop s s.length (j + fenceClose.length) := rfl
  rw [hstep, hf]
  have hpos : 0 < s.length := List.length_pos.mpr hne
  simp [substringChars, hpos]

/-- Witness for C5 (amended) on a concrete fence-free document. -/
theorem segmentDoc_noFence_witness : segmentDoc demoText = [Segment.text demoText] :=
  segmentDoc_noFence demoText (by decide) (by decide)

/-! ## C6 -/

/-- Counterexample to C6 as stated: the input `"*"` is a single unbalanced
asterisk with no matching closer; the regex finds no match, the whole input
becomes the one split fragment, and the classifier — seeing a part that
starts *and* ends with `*` — reclassifies it as an italic run with empty
content instead of emitting it verbatim as a plain run. -/
theorem parseFormatting_counterexample :
    parseFormatting ['*'] = [StyledRun.italic []] ∧
    parseFormatting ['*'] ≠ [StyledRun.plain ['*']] := by
  constructor <;> decide

/-- Claim C6 (amended).  The formatter is total (never raises): every
split fragment is classified.  An unbalanced marker appears verbatim as
part of a plain run whenever its fragment does not itself both start and
end with an asterisk; a fragment that does (such as the whole input `"*"`
or `"**"`) is instead reclassified as an italic or bold run with the outer
markers stripped. -/
theorem parseFormatting_unbalanced (s p : List Char)
    (hp : p ∈ splitEmph s (s.length + 1) 0)
    (hnot : ¬(p.take 1 = ['*'] ∧ p.drop (p.length - 1) = ['*'])) :
    classifyPart p = StyledRun.plain p ∧ StyledRun.plain p ∈ parseFormatting s := by
  have hi : ¬(p.take 1 == ['*'] && p.drop (p.length - 1) == ['*'] : Bool) := by
    simp only [Bool.and_eq_true, beq_iff_eq]
    exact hnot
  have hb : ¬(p.take 2 == ['*', '*'] && p.drop (p.length - 2) == ['*', '*'] : Bool) := by
    simp only [Bool.and_eq_true, beq_iff_eq]
    rintro ⟨h1, h2⟩
    apply hnot
    constructor
    · have h1' := congrArg (List.take 1) h1
      rw [List.take_take] at h1'
      simpa using h1'
    · have hlen : 2 ≤ p.length := by
        have := congrArg List.length h2
        simp [List.length_drop] at this
        omega
      have h3 : p.length - 1 = (p.length - 2) + 1 := by omega
      rw [h3, ← List.drop_drop, h2]
      rfl
  have hclass : classifyPart p = StyledRun.plain p := by
    unfold classifyPart
    rw [if_neg hb, if_neg hi]
  refine ⟨hclass, ?_⟩
  have hmem : classifyPart p ∈ parseFormatting s := by
    unfold parseFormatting
    exact List.mem_map_of_mem _ hp
  rwa [hclass] at hmem

/-- Witness for C6 (amended): in `"a*b"` the unbalanced `*` stays verbatim
inside the single plain run. -/
theorem parseFormatting_unbalanced_witness :
    classifyPart "a*b".toList = StyledRun.plain "a*b".toList ∧
    StyledRun.plain "a*b".toList ∈ parseFormatting "a*b".toList :=
  parseFormatting_unbalanced "a*b".toList "a*b".toList (by decide) (by decide)

/-! ## C7 -/

/-- Claim C7 (confirmed).  `saveNewPaper` returns a paper with the supplied
fresh identity, `createdAt = updatedAt`, exactly one version numbered 1
whose `createdAt` equals the paper's timestamps, and inserts it at index 0
of the store; in particular `versions.length ≥ 1` holds after create. -/
theorem saveNewPaper_spec (papers : List Paper)
    (topic overview content pid vid : String) (ts : Nat) :
    (saveNewPaper papers topic overview content pid vid ts).1.id = pid ∧
    (saveNewPaper papers topic overview content pid vid ts).1.createdAt
      = (saveNewPaper papers topic overview content pid vid ts).1.updatedAt ∧
    (saveNewPaper papers topic overview content pid vid ts).1.versions
      = [{ id := vid, versionNumber := 1, content := content, createdAt := ts }] ∧
    (saveNewPaper papers topic overview content pid vid ts).1.createdAt = ts ∧
    (saveNewPaper papers topic overview content pid vid ts).2
      = (saveNewPaper papers topic overview content pid vid ts).1 :: papers ∧
    1 ≤ (saveNewPaper papers topic overview content pid vid ts).1.versions.length :=
  ⟨rfl, rfl, rfl, rfl, rfl, Nat.le_refl 1⟩

/-! ## C8 -/

/-- Counterexample to C8 as stated: the run sequence for
`"plain **bold** and *italic*"` is *not* the claimed four runs — JS
`split` keeps the empty fragment after the final `*italic*` match, so a
fifth, empty plain run follows. -/
theorem parseFormatting_demo_counterexample :
    parseFormatting demoLine
      ≠ [StyledRun.plain "plain ".toList, StyledRun.bold "bold".toList,
         StyledRun.plain " and ".toList, StyledRun.italic "italic".toList] := by
  decide

/-- Claim C8 (amended).  `"plain **bold** and *italic*"` yields exactly
`[plain("plain "), bold("bold"), plain(" and "), italic("italic"),
plain("")]` — the four claimed runs followed by one empty plain run from
the trailing empty split fragment. -/
theorem parseFormatting_demo :
    parseFormatting demoLine
      = [StyledRun.plain "plain ".toList, StyledRun.bold "bold".toList,
         StyledRun.plain " and ".toList, StyledRun.italic "italic".toList,
         StyledRun.plain []] := by
  decide

/-! ## C9 -/

/-- Claim C9 (confirmed).  `deletePaper` with an id not present leaves the
collection unchanged (and raises no error — it is a total function); it is
idempotent; and a present id is removed together with all its versions (no
paper with that id — hence none of its owned versions — survives). -/
theorem deletePaper_spec (papers : List Paper) (id : String) :
    ((∀ p ∈ papers, p.id ≠ id) → deletePaper papers id = papers) ∧
    deletePaper (deletePaper papers id) id = deletePaper papers id ∧
    (∀ p ∈ deletePaper papers id, p.id ≠ id) := by
  refine ⟨?_, ?_, ?_⟩
  · intro h
    apply List.filter_eq_self.mpr
    intro p hp
    simpa using h p hp
  · apply List.filter_eq_self.mpr
    intro p hp
    have := List.of_mem_filter hp
    simpa using this
  · intro p hp
    have := List.of_mem_filter hp
    simpa using this

/-- Witness for C9: deleting an absent id from a concrete store is a no-op. -/
theorem deletePaper_spec_witness :
    deletePaper [⟨"p1", "t", "o", 5, 5, [⟨"v1", 1, "c", 5⟩]⟩] "zzz"
      = [⟨"p1", "t", "o", 5, 5, [⟨"v1", 1, "c", 5⟩]⟩] :=
  (deletePaper_spec [⟨"p1", "t", "o", 5, 5, [⟨"v1", 1, "c", 5⟩]⟩] "zzz").1 (by decide)

/-! ## C10 -/

/-- Claim C10 (confirmed).  `savePaperVersion` on an id absent from the
store returns the absence value (`none`, the code's `null`) and performs no
write: the stored collection after the call is identical to the one before
it. -/
theorem savePaperVersion_notFound_spec (papers : List Paper)
    (paperId content vid : String) (ts : Nat)
    (h : ∀ p ∈ papers, p.id ≠ paperId) :
    savePaperVersion papers paperId content vid ts = none ∧
    savePaperVersionStore papers paperId content vid ts = papers := by
  have hnone : papers.findIdx? (fun p => p.id == paperId) = none := by
    rw [List.findIdx?_eq_none_iff]
    intro p hp
    simpa using h p hp
  constructor
  · unfold savePaperVersion
    rw [hnone]
  · unfold savePaperVersionStore savePaperVersion
    rw [hnone]

/-- Witness for C10 at a concrete store missing the requested id. -/
theorem savePaperVersion_notFound_spec_witness :
    savePaperVersion [⟨"p1", "t", "o", 5, 5, [⟨"v1", 1, "c", 5⟩]⟩] "absent" "c" "v" 9 = none ∧
    savePaperVersionStore [⟨"p1", "t", "o", 5, 5, [⟨"v1", 1, "c", 5⟩]⟩] "absent" "c" "v" 9
      = [⟨"p1", "t", "o", 5, 5, [⟨"v1", 1, "c", 5⟩]⟩] :=
  savePaperVersion_notFound_spec [⟨"p1", "t", "o", 5, 5, [⟨"v1", 1, "c", 5⟩]⟩]
    "absent" "c" "v" 9 (by decide)

end Scholar
